import Mathlib

set_option linter.unusedSectionVars false

/-!
Shallow embedding of the separate-chaining hash map from `src/lib.rs`.

Buckets are modelled as `List (List (K × V))`, the stored item counter as a
`Nat`.  The hash function is an arbitrary parameter `hash : K → Nat`
(modelling `DefaultHasher::finish`, which is deterministic for a fixed key).
Operations whose Rust code can panic (modulo by zero in `bucket`, index out
of bounds in the iterator) return `Except Unit _`, with `.error ()`
standing for the panic.
-/

namespace Spec2Proof

structure HashMap (K V : Type) where
  buckets : List (List (K × V))
  items : Nat

variable {K V : Type} [DecidableEq K]

/-- `HashMap::new`: zero buckets, zero items. -/
def HashMap.new : HashMap K V := ⟨[], 0⟩

/-- The key-equality scan predicate `*ekey == key` used by all bucket scans. -/
def keyq (k : K) : K × V → Bool := fun p => decide (p.1 = k)

/-- `HashMap::bucket`: `hash(key) % buckets.len()`.  Rust's `%` panics when
the divisor is zero, modelled by `.error ()`. -/
def HashMap.bucket (m : HashMap K V) (hash : K → Nat) (k : K) : Except Unit Nat :=
  if m.buckets.length = 0 then .error () else .ok (hash k % m.buckets.length)

/-- `HashMap::len`. -/
def HashMap.len (m : HashMap K V) : Nat := m.items

/-- `HashMap::is_empty`: `items == 0`. -/
def HashMap.isEmpty (m : HashMap K V) : Bool := m.items == 0

/-- `HashMap::get`: short-circuits on `is_empty`, otherwise scans the
target bucket for the first pair with an equal key. -/
def HashMap.get (m : HashMap K V) (hash : K → Nat) (k : K) : Except Unit (Option V) :=
  if m.isEmpty then .ok none
  else (m.bucket hash k).map fun b =>
    ((m.buckets.getD b []).find? (keyq k)).map Prod.snd

/-- `HashMap::contains_key`: same short-circuit and scan as `get`, returning
presence only. -/
def HashMap.containsKey (m : HashMap K V) (hash : K → Nat) (k : K) : Except Unit Bool :=
  if m.isEmpty then .ok false
  else (m.bucket hash k).map fun b =>
    (m.buckets.getD b []).any (keyq k)

/-- The new bucket count chosen by `resize`: `match len { 0 => 1, n => 2*n }`. -/
def resizeTarget (n : Nat) : Nat :=
  match n with
  | 0 => 1
  | n => 2 * n

/-- One step of the redistribution loop of `resize`: push pair `p` onto
`new_buckets[hash % new_buckets.len()]` (`.set`/`++ [p]` model the in-place
push; the vector length never changes). -/
def distStep (hash : K → Nat) (a : List (List (K × V))) (p : K × V) :
    List (List (K × V)) :=
  a.set (hash p.1 % a.length) ((a.getD (hash p.1 % a.length) []) ++ [p])

/-- The redistribution loop of `resize` over all drained pairs. -/
def distribute (hash : K → Nat) (acc : List (List (K × V))) (xs : List (K × V)) :
    List (List (K × V)) :=
  xs.foldl (distStep hash) acc

/-- `HashMap::resize`: allocate `resizeTarget` empty buckets, rehash every
pair of the old buckets (drained in bucket-then-position order) into them,
keep `items` unchanged. -/
def HashMap.resize (m : HashMap K V) (hash : K → Nat) : HashMap K V :=
  { buckets := distribute hash (List.replicate (resizeTarget m.buckets.length) []) m.buckets.flatten,
    items := m.items }

/-- The `for` scan of `insert` over one bucket: replace the value of the
first pair with an equal key and return the previous value, otherwise push
the new pair at the end. -/
def insertInBucket (k : K) (v : V) : List (K × V) → Option V × List (K × V)
  | [] => (none, [(k, v)])
  | p :: rest =>
    if p.1 = k then (some p.2, (p.1, v) :: rest)
    else
      let r := insertInBucket k v rest
      (r.1, p :: r.2)

/-- The conditional resize at the top of `insert`: resize when the bucket
vector is empty or `items > 3 * len / 4` (integer division). -/
def HashMap.insertResize (m : HashMap K V) (hash : K → Nat) : HashMap K V :=
  if m.buckets.isEmpty || decide (m.items > 3 * m.buckets.length / 4)
  then m.resize hash else m

/-- `HashMap::insert`: conditionally resize, then scan the target bucket;
`items` grows by one only when no equal key was found.  After the
conditional resize the bucket count is always positive, so the `%` here
cannot be the zero-divisor panic. -/
def HashMap.insert (m : HashMap K V) (hash : K → Nat) (k : K) (v : V) :
    Option V × HashMap K V :=
  let m1 := m.insertResize hash
  let b := hash k % m1.buckets.length
  let r := insertInBucket k v (m1.buckets.getD b [])
  (r.1, ⟨m1.buckets.set b r.2, m1.items + if r.1.isSome then 0 else 1⟩)

/-- `Vec::swap_remove(i)`: return element `i`, move the last element into
slot `i`, drop the last slot.  Out-of-range `i` (never produced by callers)
leaves the list unchanged. -/
def swapRemove (l : List (K × V)) (i : Nat) : Option (K × V) × List (K × V) :=
  match l.get? i, l.getLast? with
  | some x, some last => (some x, (l.set i last).dropLast)
  | _, _ => (none, l)

/-- `HashMap::remove`: computes the bucket index with no empty guard (the
zero-divisor panic of `bucket` is reachable here), finds the key's position,
swap-removes it and returns its value.  `items` is NOT decremented — exactly
as in the source. -/
def HashMap.remove (m : HashMap K V) (hash : K → Nat) (k : K) :
    Except Unit (Option V × HashMap K V) :=
  (m.bucket hash k).map fun b =>
    let bkt := m.buckets.getD b []
    match bkt.findIdx? (keyq k) with
    | none => (none, m)
    | some i =>
      let r := swapRemove bkt i
      (r.1.map Prod.snd, ⟨m.buckets.set b r.2, m.items⟩)

/-- The `while buckets.get(bucket_num)?.is_empty()` loop of
`HashMapIter::next`, written with the explicit fuel `buckets.length - b`
(the loop advances `bucket_num` by one per step, so this fuel is exact):
skip forward over empty buckets, stopping at the first nonempty bucket or at
the first out-of-range index. -/
def skipEmptyGo (buckets : List (List (K × V))) : Nat → Nat → Nat
  | 0, b => b
  | d + 1, b => if (buckets.getD b []).isEmpty then skipEmptyGo buckets d (b + 1) else b

def skipEmpty (buckets : List (List (K × V))) (b : Nat) : Nat :=
  skipEmptyGo buckets (buckets.length - b) b

/-- `HashMapIter::next` as a state transformer on `(bucket_num, item_num)`.
The first statement indexes `buckets[bucket_num]` unguarded — a panic
(`.error ()`) whenever `bucket_num` is out of range.  Then: advance to the
next bucket when the item index has run off the current bucket, skip empty
buckets, and either yield the pair at the current position (advancing
`item_num`) or report exhaustion (`ok none`). -/
def iterNext (buckets : List (List (K × V))) (b i : Nat) :
    Except Unit (Option (K × V) × Nat × Nat) :=
  if b < buckets.length then
    let s := if (buckets.getD b []).length ≤ i then (b + 1, 0) else (b, i)
    let b1 := skipEmpty buckets s.1
    if b1 < buckets.length then
      match (buckets.getD b1 []).get? s.2 with
      | some p => .ok (some p, b1, s.2 + 1)
      | none => .ok (none, b1, s.2)
    else .ok (none, b1, s.2)
  else .error ()

/-- A full traversal: call `iterNext` repeatedly (from the `into_iter` start
state `(0, 0)`) until it reports exhaustion, collecting the yielded pairs.
Running out of fuel is reported as `.error ()`, so an `.ok` result certifies
that the traversal genuinely reached exhaustion. -/
def collectIter (buckets : List (List (K × V))) : Nat → Nat → Nat → Except Unit (List (K × V))
  | 0, _, _ => .error ()
  | fuel + 1, b, i =>
    match iterNext buckets b i with
    | .error e => .error e
    | .ok (none, _, _) => .ok []
    | .ok (some p, s) => (collectIter buckets fuel s.1 s.2).map (p :: ·)

/-- The container invariant of spec §3: `items` equals the sum of all bucket
lengths, and every stored pair sits in the bucket determined by its hash. -/
def WF (hash : K → Nat) (m : HashMap K V) : Prop :=
  m.items = (m.buckets.map List.length).sum ∧
  ∀ j, ∀ p ∈ m.buckets.getD j [], hash p.1 % m.buckets.length = j

/-- The identity hash on `Nat`, used for concrete test maps. -/
def idh : Nat → Nat := fun n => n

/-- The one-entry map obtained by `insert(0, 0)` on a fresh map:
one bucket holding `(0, 0)`, `items = 1`. -/
def mEx : HashMap Nat Nat := ((HashMap.new).insert idh 0 0).2

/-- `find?` is unchanged by a `filter` whose predicate is implied by the
search predicate. -/
theorem find?_filter_of_imp {α : Type} (q r : α → Bool)
    (h : ∀ p, q p = true → r p = true) :
    ∀ xs : List α, (xs.filter r).find? q = xs.find? q := by
  intro xs
  induction xs with
  | nil => rfl
  | cons p xs ih =>
    by_cases hq : q p = true
    · rw [List.filter_cons, if_pos (h p hq), List.find?_cons_of_pos _ hq,
        List.find?_cons_of_pos _ hq]
    · rw [List.find?_cons_of_neg _ hq]
      by_cases hr : r p = true
      · rw [List.filter_cons, if_pos hr, List.find?_cons_of_neg _ hq, ih]
      · rw [List.filter_cons, if_neg hr, ih]

/-- If every element of any bucket that satisfies `q` forces its bucket
index to be `j0`, searching the flattened buckets equals searching bucket
`j0` alone. -/
theorem find?_flatten_localize {α : Type} (q : α → Bool) :
    ∀ (L : List (List α)) (j0 : Nat), j0 < L.length →
      (∀ j, j < L.length → ∀ p ∈ L.getD j [], q p = true → j = j0) →
      L.flatten.find? q = (L.getD j0 []).find? q := by
  intro L
  induction L with
  | nil => intro j0 hj0 _; exact absurd hj0 (by simp)
  | cons hd tl ih =>
    intro j0 hj0 hq
    rw [List.flatten_cons, List.find?_append]
    match j0 with
    | 0 =>
      have htl : tl.flatten.find? q = none := by
        rw [List.find?_eq_none]
        intro p hp hqp
        obtain ⟨l, hl, hpl⟩ := List.mem_flatten.mp hp
        obtain ⟨n, hn, rfl⟩ := List.getElem_of_mem hl
        have h0 := hq (n + 1) (by simpa using Nat.succ_lt_succ hn) p
          (by rw [List.getD_cons_succ, List.getD_eq_getElem _ _ hn]; exact hpl) hqp
        exact Nat.succ_ne_zero n h0
      rw [htl, Option.or_none, List.getD_cons_zero]
    | j' + 1 =>
      have hhd : hd.find? q = none := by
        rw [List.find?_eq_none]
        intro p hp hqp
        have h0 := hq 0 (by simp) p (by simpa using hp) hqp
        exact Nat.succ_ne_zero j' h0.symm
      rw [hhd, Option.none_or, List.getD_cons_succ]
      exact ih j' (Nat.lt_of_succ_lt_succ hj0) (fun j hj p hp hqp => by
        have h0 := hq (j + 1) (Nat.succ_lt_succ hj) p
          (by rwa [List.getD_cons_succ]) hqp
        omega)

/-- Under the bucket-placement invariant, searching all buckets for a key
equals searching the key's own bucket. -/
theorem find?_eq_bucket_find? (hash : K → Nat) (m : HashMap K V) (k : K)
    (hplace : ∀ j, ∀ p ∈ m.buckets.getD j [], hash p.1 % m.buckets.length = j)
    (hlen : m.buckets.length ≠ 0) :
    m.buckets.flatten.find? (keyq k) =
      (m.buckets.getD (hash k % m.buckets.length) []).find? (keyq k) := by
  apply find?_flatten_localize
  · exact Nat.mod_lt _ (Nat.pos_of_ne_zero hlen)
  · intro j _ p hp hqp
    have hk : p.1 = k := of_decide_eq_true hqp
    rw [← hplace j p hp, hk]

theorem distStep_length (hash : K → Nat) (a : List (List (K × V))) (p : K × V) :
    (distStep hash a p).length = a.length := by
  rw [distStep, List.length_set]

theorem distStep_getD (hash : K → Nat) (a : List (List (K × V))) (p : K × V)
    (j : Nat) (hj : j < a.length) :
    (distStep hash a p).getD j [] =
      if hash p.1 % a.length = j then a.getD j [] ++ [p] else a.getD j [] := by
  by_cases hb : hash p.1 % a.length = j
  · subst hb
    rw [if_pos rfl, distStep]
    simp [List.getD_eq_getElem?_getD, List.getElem?_set, hj]
  · rw [if_neg hb, distStep]
    simp [List.getD_eq_getElem?_getD, List.getElem?_set, hb]

theorem distribute_length (hash : K → Nat) :
    ∀ (xs : List (K × V)) (acc : List (List (K × V))),
      (distribute hash acc xs).length = acc.length := by
  intro xs
  induction xs with
  | nil => intro acc; rfl
  | cons p xs ih =>
    intro acc
    rw [distribute, List.foldl_cons, ← distribute, ih, distStep_length]

/-- Each bucket of the redistributed array holds exactly the pairs that
hash to it, in drain order. -/
theorem distribute_getD (hash : K → Nat) :
    ∀ (xs : List (K × V)) (acc : List (List (K × V))), 0 < acc.length →
      ∀ j, j < acc.length →
        (distribute hash acc xs).getD j [] =
          acc.getD j [] ++ xs.filter (fun p => hash p.1 % acc.length == j) := by
  intro xs
  induction xs with
  | nil => intro acc _ j _; simp [distribute]
  | cons p xs ih =>
    intro acc hpos j hj
    rw [distribute, List.foldl_cons, ← distribute]
    rw [ih (distStep hash acc p) (by rw [distStep_length]; exact hpos) j
      (by rw [distStep_length]; exact hj)]
    simp only [distStep_length]
    rw [distStep_getD hash acc p j hj, List.filter_cons]
    by_cases hb : hash p.1 % acc.length = j
    · rw [if_pos hb, if_pos (by simpa using hb), List.append_assoc]
      rfl
    · rw [if_neg hb, if_neg (by simpa using hb)]

theorem resizeTarget_pos (n : Nat) : 0 < resizeTarget n := by
  cases n with
  | zero => decide
  | succ n => simp only [resizeTarget]; omega

theorem resize_buckets_length (m : HashMap K V) (hash : K → Nat) :
    (m.resize hash).buckets.length = resizeTarget m.buckets.length := by
  rw [HashMap.resize]
  rw [distribute_length, List.length_replicate]

theorem resize_items (m : HashMap K V) (hash : K → Nat) :
    (m.resize hash).items = m.items := rfl

/-- The bucket-level characterisation of `resize`: bucket `j` of the new
array holds exactly the old pairs whose hash targets `j`. -/
theorem resize_getD (m : HashMap K V) (hash : K → Nat) (j : Nat)
    (hj : j < resizeTarget m.buckets.length) :
    (m.resize hash).buckets.getD j [] =
      m.buckets.flatten.filter
        (fun p => hash p.1 % resizeTarget m.buckets.length == j) := by
  rw [HashMap.resize]
  rw [distribute_getD hash _ _
    (by rw [List.length_replicate]; exact resizeTarget_pos _) j
    (by rw [List.length_replicate]; exact hj)]
  simp [List.getD_eq_getElem?_getD, List.getElem?_replicate, hj]

/-- Canonical form of `get` under the container invariant: it returns the
value of the first pair of the flattened buckets with an equal key. -/
theorem get_eq_flatten_find? (hash : K → Nat) (m : HashMap K V)
    (hwf : WF hash m) (k : K) :
    m.get hash k = .ok ((m.buckets.flatten.find? (keyq k)).map Prod.snd) := by
  obtain ⟨hitems, hplace⟩ := hwf
  by_cases h0 : m.items = 0
  · have hfl : m.buckets.flatten = [] := by
      have hl : m.buckets.flatten.length = 0 := by
        rw [List.length_flatten, ← hitems, h0]
      exact List.length_eq_zero.mp hl
    simp [HashMap.get, HashMap.isEmpty, h0, hfl]
  · have hlen : m.buckets.length ≠ 0 := by
      intro hl
      rw [List.length_eq_zero.mp hl] at hitems
      simp at hitems
      exact h0 hitems
    have hne : ¬ (m.isEmpty = true) := by simp [HashMap.isEmpty, h0]
    rw [HashMap.get, if_neg hne, HashMap.bucket, if_neg hlen,
      find?_eq_bucket_find? hash m k hplace hlen]
    rfl

theorem insertInBucket_fst (k : K) (v : V) :
    ∀ l : List (K × V),
      (insertInBucket k v l).1 = (l.find? (keyq k)).map Prod.snd := by
  intro l
  induction l with
  | nil => rfl
  | cons p rest ih =>
    by_cases hp : p.1 = k
    · simp only [insertInBucket, if_pos hp]
      rw [List.find?_cons_of_pos _ (by simp [keyq, hp])]
      rfl
    · simp only [insertInBucket, if_neg hp]
      rw [List.find?_cons_of_neg _ (by simp [keyq, hp])]
      exact ih

theorem insertInBucket_find? (k : K) (v : V) :
    ∀ l : List (K × V),
      (((insertInBucket k v l).2).find? (keyq k)).map Prod.snd = some v := by
  intro l
  induction l with
  | nil =>
    show (([(k, v)]).find? (keyq k)).map Prod.snd = some v
    rw [List.find?_cons_of_pos _ (by simp [keyq])]
    rfl
  | cons p rest ih =>
    by_cases hp : p.1 = k
    · simp only [insertInBucket, if_pos hp]
      rw [List.find?_cons_of_pos _ (by simp [keyq, hp])]
      rfl
    · simp only [insertInBucket, if_neg hp]
      rw [List.find?_cons_of_neg _ (by simp [keyq, hp])]
      exact ih

theorem insertResize_items (m : HashMap K V) (hash : K → Nat) :
    (m.insertResize hash).items = m.items := by
  rw [HashMap.insertResize]
  split <;> rfl

/-- After the conditional resize of `insert` the bucket count is positive,
and (under the placement invariant) searching the key's target bucket is
the same as searching all original buckets. -/
theorem insertResize_spec (hash : K → Nat) (m : HashMap K V) (k : K)
    (hplace : ∀ j, ∀ p ∈ m.buckets.getD j [], hash p.1 % m.buckets.length = j) :
    0 < (m.insertResize hash).buckets.length ∧
    ((m.insertResize hash).buckets.getD
        (hash k % (m.insertResize hash).buckets.length) []).find? (keyq k) =
      m.buckets.flatten.find? (keyq k) := by
  rw [HashMap.insertResize]
  split
  · constructor
    · rw [resize_buckets_length]; exact resizeTarget_pos _
    · rw [resize_buckets_length,
        resize_getD m hash _ (Nat.mod_lt _ (resizeTarget_pos _))]
      exact find?_filter_of_imp _ _ (fun p hq => by
        have hk : p.1 = k := of_decide_eq_true hq
        simp [hk]) _
  · next h =>
    have hne : m.buckets.length ≠ 0 := by
      intro hl
      exact h (by simp [List.isEmpty_iff, List.length_eq_zero.mp hl])
    exact ⟨Nat.pos_of_ne_zero hne,
      (find?_eq_bucket_find? hash m k hplace hne).symm⟩

/-- C1.  After `new().insert(0,0).remove(0)` the stored counter `items` is
still `1` while every bucket is empty, so `items` differs from the sum of
the bucket lengths: `remove` never decrements `items`, violating the
invariant the spec states for every public operation. -/
theorem remove_breaks_items_invariant :
    mEx.remove idh 0 = .ok (some 0, HashMap.mk [[]] 1) ∧
    (HashMap.mk [[]] 1 : HashMap Nat Nat).items ≠
      (((HashMap.mk [[]] 1 : HashMap Nat Nat)).buckets.map List.length).sum :=
  ⟨rfl, by decide⟩

/-- C2.  On the one-entry map, `remove(0)` does return the stored value and
a subsequent `get(0)` does return absence, but `len()` does not decrease:
it stays `1` because `remove` leaves `items` untouched. -/
theorem remove_does_not_decrease_len :
    mEx.remove idh 0 = .ok (some 0, HashMap.mk [[]] 1) ∧
    (HashMap.mk [[]] 1 : HashMap Nat Nat).get idh 0 = .ok none ∧
    mEx.len = 1 ∧ (HashMap.mk [[]] 1 : HashMap Nat Nat).len = 1 :=
  ⟨rfl, rfl, rfl, rfl⟩

/-- C3.  `remove` has no zero-bucket guard: on a freshly created map it
reaches the bucket-index computation with bucket count zero, i.e. the
modulo-by-zero fault (modelled by `.error ()`), instead of returning
absence. -/
theorem remove_on_new_map_faults :
    (HashMap.new : HashMap Nat Nat).remove idh 0 = .error () := rfl

/-- C4.  The iterator of a zero-bucket map faults on the first `next()`:
the unguarded `buckets[bucket_num]` indexes an empty bucket vector
(modelled by `.error ()`) instead of yielding absence.  `(0, 0)` is the
start state installed by `into_iter`. -/
theorem iter_empty_map_faults :
    iterNext (HashMap.new : HashMap Nat Nat).buckets 0 0 = .error () := rfl

/-- C5.  On a one-bucket one-entry map the iterator yields the pair, then
reports exhaustion with `bucket_num` equal to the bucket count — and the
very next call faults on the unguarded `buckets[bucket_num]` index instead
of yielding absence again. -/
theorem iter_after_exhaustion_faults :
    iterNext [[((0 : Nat), (0 : Nat))]] 0 0 = .ok (some (0, 0), 0, 1) ∧
    iterNext [[((0 : Nat), (0 : Nat))]] 0 1 = .ok (none, 1, 0) ∧
    iterNext [[((0 : Nat), (0 : Nat))]] 1 0 = .error () :=
  ⟨rfl, rfl, rfl⟩

/-- The fresh map satisfies the container invariant, for every hash. -/
theorem WF_new (hash : K → Nat) : WF hash (HashMap.new : HashMap K V) := by
  constructor
  · rfl
  · intro j p hp
    simp [HashMap.new] at hp

/-- The one-entry test map satisfies the container invariant under the
identity hash. -/
theorem WF_mEx : WF idh mEx := by
  constructor
  · rfl
  · intro j p hp
    have hb : mEx.buckets = [[(0, 0)]] := rfl
    rw [hb] at hp
    match j with
    | 0 =>
      rw [List.getD_cons_zero] at hp
      simp at hp
      rw [hp]
      rfl
    | j' + 1 =>
      rw [List.getD_cons_succ, List.getD_nil] at hp
      simp at hp

/-- `get` with a nonzero item count and a nonzero bucket count scans the
key's bucket. -/
theorem get_of_ne_zero (m : HashMap K V) (hash : K → Nat) (k : K)
    (h0 : m.items ≠ 0) (hlen : m.buckets.length ≠ 0) :
    m.get hash k =
      .ok (((m.buckets.getD (hash k % m.buckets.length) []).find?
        (keyq k)).map Prod.snd) := by
  rw [HashMap.get, if_neg (by simp [HashMap.isEmpty, h0]), HashMap.bucket,
    if_neg hlen]
  rfl

/-- C6.  Under the container invariant: a `get` of the inserted key after
`insert(k, v)` returns `v`; `insert` returns exactly what `get` returned
before it (the prior value when the key was present, absence otherwise);
and `len` is unchanged on replacement while growing by one on a fresh
key. -/
theorem insert_spec (hash : K → Nat) (m : HashMap K V) (k : K) (v : V)
    (hwf : WF hash m) :
    (m.insert hash k v).2.get hash k = .ok (some v) ∧
    m.get hash k = .ok (m.insert hash k v).1 ∧
    (m.insert hash k v).2.items
      = m.items + (if (m.insert hash k v).1.isSome then 0 else 1) := by
  obtain ⟨hpos, hfind⟩ := insertResize_spec hash m k hwf.2
  have hMitems := insertResize_items m hash
  have hget := get_eq_flatten_find? hash m hwf k
  have hins : m.insert hash k v =
      ((insertInBucket k v ((m.insertResize hash).buckets.getD
          (hash k % (m.insertResize hash).buckets.length) [])).1,
        ⟨(m.insertResize hash).buckets.set
            (hash k % (m.insertResize hash).buckets.length)
            (insertInBucket k v ((m.insertResize hash).buckets.getD
              (hash k % (m.insertResize hash).buckets.length) [])).2,
          (m.insertResize hash).items +
            if (insertInBucket k v ((m.insertResize hash).buckets.getD
              (hash k % (m.insertResize hash).buckets.length) [])).1.isSome
            then 0 else 1⟩) := rfl
  rw [hins]
  generalize hM : m.insertResize hash = M at hpos hfind hMitems ⊢
  set b := hash k % M.buckets.length with hb
  set r := insertInBucket k v (M.buckets.getD b []) with hrdef
  have hr1 : r.1 = (m.buckets.flatten.find? (keyq k)).map Prod.snd := by
    rw [hrdef, insertInBucket_fst, hfind]
  have hitems2 : M.items + (if r.1.isSome then 0 else 1) ≠ 0 := by
    by_cases hs : r.1.isSome
    · rw [if_pos hs, hMitems]
      rw [hr1] at hs
      cases hfq : m.buckets.flatten.find? (keyq k) with
      | none => rw [hfq] at hs; simp at hs
      | some p =>
        have hmem : p ∈ m.buckets.flatten := List.mem_of_find?_eq_some hfq
        have hfl : m.buckets.flatten ≠ [] := by
          intro hnil
          rw [hnil] at hmem
          simp at hmem
        have hsum : 0 < (m.buckets.map List.length).sum := by
          rw [← List.length_flatten]
          exact List.length_pos.mpr hfl
        rw [hwf.1]
        omega
    · rw [if_neg hs]
      omega
  refine ⟨?_, ?_, ?_⟩
  · rw [get_of_ne_zero _ hash k hitems2
      (by show (M.buckets.set b r.2).length ≠ 0
          rw [List.length_set]
          omega)]
    show Except.ok (((M.buckets.set b r.2).getD
        (hash k % (M.buckets.set b r.2).length) []).find? (keyq k)
        |>.map Prod.snd) = _
    rw [List.length_set, ← hb]
    have hblt : b < M.buckets.length := by rw [hb]; exact Nat.mod_lt _ hpos
    have hgd : (M.buckets.set b r.2).getD b [] = r.2 := by
      simp [List.getD_eq_getElem?_getD, List.getElem?_set, hblt]
    rw [hgd, hrdef, insertInBucket_find?]
  · rw [hget, hr1]
  · show M.items + _ = m.items + _
    rw [hMitems]

/-- Under the container invariant, `get` is preserved by `resize`. -/
theorem get_resize (hash : K → Nat) (m : HashMap K V) (hwf : WF hash m)
    (k : K) : (m.resize hash).get hash k = m.get hash k := by
  have hlen : (m.resize hash).buckets.length = resizeTarget m.buckets.length :=
    resize_buckets_length m hash
  by_cases h0 : m.items = 0
  · have e1 : (m.resize hash).get hash k = .ok none := by
      rw [HashMap.get, if_pos (by simp [HashMap.isEmpty, resize_items, h0])]
    have e2 : m.get hash k = .ok none := by
      rw [HashMap.get, if_pos (by simp [HashMap.isEmpty, h0])]
    rw [e1, e2]
  · have h0' : (m.resize hash).items ≠ 0 := by rw [resize_items]; exact h0
    have htp := resizeTarget_pos m.buckets.length
    have hlen0 : (m.resize hash).buckets.length ≠ 0 := by rw [hlen]; omega
    rw [get_of_ne_zero _ hash k h0' hlen0, get_eq_flatten_find? hash m hwf k]
    rw [hlen, resize_getD m hash _ (Nat.mod_lt _ htp)]
    rw [find?_filter_of_imp _ _ (fun p hq => by
      have hk : p.1 = k := of_decide_eq_true hq
      simp [hk]) _]

/-- C7.  `resize` doubles the bucket count (`0 → 1` on the first call,
otherwise `n → 2n`), each new bucket holds exactly the pairs rehashed to it
against the new bucket count, and under the container invariant every
mapping is preserved: `get` of any key after the resize equals `get`
before it. -/
theorem resize_spec (hash : K → Nat) (m : HashMap K V) (hwf : WF hash m) :
    (m.buckets.length = 0 → (m.resize hash).buckets.length = 1) ∧
    (m.buckets.length ≠ 0 →
      (m.resize hash).buckets.length = 2 * m.buckets.length) ∧
    (∀ j, j < (m.resize hash).buckets.length →
      (m.resize hash).buckets.getD j [] =
        m.buckets.flatten.filter
          (fun p => hash p.1 % (m.resize hash).buckets.length == j)) ∧
    (∀ k, (m.resize hash).get hash k = m.get hash k) := by
  have hlen : (m.resize hash).buckets.length = resizeTarget m.buckets.length :=
    resize_buckets_length m hash
  refine ⟨?_, ?_, ?_, ?_⟩
  · intro h0
    rw [hlen, h0]
    rfl
  · intro h0
    rw [hlen]
    match hn : m.buckets.length, h0 with
    | n + 1, _ => rfl
  · intro j hj
    rw [hlen] at hj ⊢
    exact resize_getD m hash j hj
  · exact get_resize hash m hwf

/-- Witness for C6: inserting `(0, 5)` into the fresh map under the
identity hash. -/
theorem insert_spec_witness :
    (((HashMap.new : HashMap Nat Nat).insert idh 0 5).2.get idh 0
        = .ok (some 5) ∧
      (HashMap.new : HashMap Nat Nat).get idh 0
        = .ok ((HashMap.new : HashMap Nat Nat).insert idh 0 5).1 ∧
      ((HashMap.new : HashMap Nat Nat).insert idh 0 5).2.items
        = (HashMap.new : HashMap Nat Nat).items +
          (if ((HashMap.new : HashMap Nat Nat).insert idh 0 5).1.isSome
            then 0 else 1)) :=
  insert_spec idh HashMap.new 0 5 (WF_new idh)

/-- Witness for C7: resizing the one-entry map under the identity hash. -/
theorem resize_spec_witness :
    ((mEx.buckets.length = 0 → (mEx.resize idh).buckets.length = 1) ∧
      (mEx.buckets.length ≠ 0 →
        (mEx.resize idh).buckets.length = 2 * mEx.buckets.length) ∧
      (∀ j, j < (mEx.resize idh).buckets.length →
        (mEx.resize idh).buckets.getD j [] =
          mEx.buckets.flatten.filter
            (fun p => idh p.1 % (mEx.resize idh).buckets.length == j)) ∧
      (∀ k, (mEx.resize idh).get idh k = mEx.get idh k)) :=
  resize_spec idh mEx WF_mEx

/-- C9.  On a map with zero items, `get` and `contains_key` short-circuit
on the `is_empty` test before any bucket-index computation, returning
absence and `false` for every key and every hash function. -/
theorem get_contains_on_empty (hash : K → Nat) (m : HashMap K V) (k : K)
    (h : m.items = 0) :
    m.get hash k = .ok none ∧ m.containsKey hash k = .ok false := by
  simp [HashMap.get, HashMap.containsKey, HashMap.isEmpty, h]

/-- The empty-bucket skip preserves the not-yet-visited contents and stops
only at a nonempty bucket (when it stops in range). -/
theorem skipEmptyGo_spec (buckets : List (List (K × V))) :
    ∀ d b, buckets.length ≤ b + d →
      (buckets.drop b).flatten
          = (buckets.drop (skipEmptyGo buckets d b)).flatten ∧
      (skipEmptyGo buckets d b < buckets.length →
        (buckets.getD (skipEmptyGo buckets d b) []).isEmpty = false) := by
  intro d
  induction d with
  | zero =>
    intro b hb
    refine ⟨rfl, ?_⟩
    intro hlt
    simp only [skipEmptyGo] at hlt
    omega
  | succ d ih =>
    intro b hb
    by_cases he : (buckets.getD b []).isEmpty
    · have hstep : skipEmptyGo buckets (d + 1) b = skipEmptyGo buckets d (b + 1) := by
        simp only [skipEmptyGo, if_pos he]
      obtain ⟨ih1, ih2⟩ := ih (b + 1) (by omega)
      rw [hstep]
      refine ⟨?_, ih2⟩
      by_cases hblt : b < buckets.length
      · rw [List.drop_eq_getElem_cons hblt, List.flatten_cons,
          ← List.getD_eq_getElem buckets [] hblt, List.isEmpty_iff.mp he,
          List.nil_append]
        exact ih1
      · rw [List.drop_eq_nil_of_le (by omega), ← ih1,
          List.drop_eq_nil_of_le (by omega)]
    · have hstep : skipEmptyGo buckets (d + 1) b = b := by
        simp only [skipEmptyGo, if_neg he]
      rw [hstep]
      exact ⟨rfl, fun _ => by simpa using he⟩

theorem skipEmpty_spec (buckets : List (List (K × V))) (b : Nat) :
    (buckets.drop b).flatten = (buckets.drop (skipEmpty buckets b)).flatten ∧
    (skipEmpty buckets b < buckets.length →
      (buckets.getD (skipEmpty buckets b) []).isEmpty = false) := by
  rw [skipEmpty]
  exact skipEmptyGo_spec buckets (buckets.length - b) b (by omega)

theorem skipEmpty_eq_self (buckets : List (List (K × V))) (b : Nat)
    (hb : b < buckets.length) (hne : (buckets.getD b []).isEmpty = false) :
    skipEmpty buckets b = b := by
  rw [skipEmpty]
  have hd : buckets.length - b = (buckets.length - b - 1) + 1 := by omega
  rw [hd]
  show (if (buckets.getD b []).isEmpty = true then
    skipEmptyGo buckets (buckets.length - b - 1) (b + 1) else b) = b
  rw [hne]
  simp

/-- `next()` in the middle of a bucket yields the pair at the current
position and advances the item index. -/
theorem iterNext_yield_mid (buckets : List (List (K × V))) (b i : Nat)
    (hb : b < buckets.length) (hi : i < (buckets.getD b []).length) :
    iterNext buckets b i =
      .ok (some ((buckets.getD b []).get ⟨i, hi⟩), b, i + 1) := by
  have hne : (buckets.getD b []).isEmpty = false := by
    rw [List.isEmpty_eq_false]
    intro hnil
    rw [hnil] at hi
    simp at hi
  have hskip : skipEmpty buckets b = b := skipEmpty_eq_self buckets b hb hne
  simp only [iterNext, if_pos hb, if_neg (Nat.not_le.mpr hi)]
  rw [hskip, if_pos hb, List.get?_eq_getElem?, List.getElem?_eq_getElem hi]
  rfl

/-- `next()` at the end of a bucket, when the empty-bucket skip stops in
range: yields the head of that bucket with the item index reset. -/
theorem iterNext_boundary_yield (buckets : List (List (K × V))) (b i : Nat)
    (hb : b < buckets.length) (hi : (buckets.getD b []).length ≤ i)
    (hlt : skipEmpty buckets (b + 1) < buckets.length)
    (hpos : 0 < (buckets.getD (skipEmpty buckets (b + 1)) []).length) :
    iterNext buckets b i =
      .ok (some ((buckets.getD (skipEmpty buckets (b + 1)) []).get ⟨0, hpos⟩),
        skipEmpty buckets (b + 1), 1) := by
  simp only [iterNext, if_pos hb, if_pos hi]
  rw [if_pos hlt, List.get?_eq_getElem?, List.getElem?_eq_getElem hpos]
  rfl

/-- `next()` at the end of a bucket, when the empty-bucket skip runs off
the bucket array: reports exhaustion, leaving `bucket_num` out of range. -/
theorem iterNext_boundary_none (buckets : List (List (K × V))) (b i : Nat)
    (hb : b < buckets.length) (hi : (buckets.getD b []).length ≤ i)
    (hge : ¬ skipEmpty buckets (b + 1) < buckets.length) :
    iterNext buckets b i = .ok (none, skipEmpty buckets (b + 1), 0) := by
  simp only [iterNext, if_pos hb, if_pos hi]
  rw [if_neg hge]

theorem collectIter_succ (buckets : List (List (K × V))) (fuel b i : Nat) :
    collectIter buckets (fuel + 1) b i =
      match iterNext buckets b i with
      | .error e => .error e
      | .ok (none, _, _) => .ok []
      | .ok (some p, s) => (collectIter buckets fuel s.1 s.2).map (p :: ·) := rfl

/-- Full-traversal lemma: from any in-range position, with fuel exceeding
the number of remaining pairs, the iterator yields exactly the rest of the
current bucket followed by all later buckets, then reports exhaustion. -/
theorem collectIter_spec (buckets : List (List (K × V))) :
    ∀ fuel b i, b < buckets.length → i ≤ (buckets.getD b []).length →
      ((buckets.getD b []).drop i ++ (buckets.drop (b + 1)).flatten).length
          < fuel →
      collectIter buckets fuel b i =
        .ok ((buckets.getD b []).drop i ++ (buckets.drop (b + 1)).flatten) := by
  intro fuel
  induction fuel with
  | zero => intro b i _ _ hf; omega
  | succ fuel ih =>
    intro b i hb hi hf
    rw [List.length_append, List.length_drop] at hf
    rcases Nat.lt_or_ge i (buckets.getD b []).length with hlt | hge
    · rw [collectIter_succ, iterNext_yield_mid buckets b i hb hlt]
      show (collectIter buckets fuel b (i + 1)).map _ = _
      rw [ih b (i + 1) hb (by omega)
        (by rw [List.length_append, List.length_drop]; omega)]
      show Except.ok ((buckets.getD b []).get ⟨i, hlt⟩ ::
        ((buckets.getD b []).drop (i + 1) ++ (buckets.drop (b + 1)).flatten)) = _
      exact congrArg Except.ok (by rw [List.drop_eq_getElem_cons hlt]; rfl)
    · have hdropnil : (buckets.getD b []).drop i = [] :=
        List.drop_eq_nil_of_le hge
      obtain ⟨hflat, hne⟩ := skipEmpty_spec buckets (b + 1)
      by_cases hlt1 : skipEmpty buckets (b + 1) < buckets.length
      · have hposb : 0 < (buckets.getD (skipEmpty buckets (b + 1)) []).length := by
          have hb1 := hne hlt1
          rw [List.isEmpty_eq_false] at hb1
          exact List.length_pos.mpr hb1
        have hsplit : (buckets.drop (b + 1)).flatten
            = buckets.getD (skipEmpty buckets (b + 1)) []
              ++ (buckets.drop (skipEmpty buckets (b + 1) + 1)).flatten := by
          rw [hflat, List.drop_eq_getElem_cons hlt1, List.flatten_cons,
            List.getD_eq_getElem buckets [] hlt1]
        rw [collectIter_succ,
          iterNext_boundary_yield buckets b i hb hge hlt1 hposb]
        show (collectIter buckets fuel (skipEmpty buckets (b + 1)) 1).map _ = _
        have hflen : ((buckets.drop (b + 1)).flatten).length
            = (buckets.getD (skipEmpty buckets (b + 1)) []).length
              + ((buckets.drop (skipEmpty buckets (b + 1) + 1)).flatten).length := by
          rw [hsplit, List.length_append]
        rw [ih (skipEmpty buckets (b + 1)) 1 hlt1 (by omega)
          (by rw [List.length_append, List.length_drop]; omega)]
        have hcons : buckets.getD (skipEmpty buckets (b + 1)) []
            = (buckets.getD (skipEmpty buckets (b + 1)) []).get ⟨0, hposb⟩
              :: (buckets.getD (skipEmpty buckets (b + 1)) []).drop 1 := by
          conv_lhs => rw [← List.drop_zero (buckets.getD (skipEmpty buckets (b + 1)) []),
            List.drop_eq_getElem_cons hposb]
          rfl
        show Except.ok ((buckets.getD (skipEmpty buckets (b + 1)) []).get ⟨0, hposb⟩ ::
            ((buckets.getD (skipEmpty buckets (b + 1)) []).drop 1
              ++ (buckets.drop (skipEmpty buckets (b + 1) + 1)).flatten)) = _
        refine congrArg Except.ok ?_
        rw [hdropnil, List.nil_append, hsplit]
        conv_rhs => rw [hcons]
        rfl
      · rw [collectIter_succ, iterNext_boundary_none buckets b i hb hge hlt1]
        rw [hdropnil, List.nil_append, hflat,
          List.drop_eq_nil_of_le (by omega)]
        rfl

/-- C8 (amended).  For any map whose bucket array is nonempty (as after at
least one insert), a full traversal from the `into_iter` start state
terminates and yields exactly the stored pairs — each exactly once, in
bucket-then-position order — and when the stored keys are pairwise
distinct (the map's key-uniqueness invariant) the yielded keys are all
distinct. -/
theorem iterate_yields_all_pairs (m : HashMap K V) (hb : m.buckets ≠ [])
    (hnd : m.buckets.flatten.Pairwise (fun p q => p.1 ≠ q.1)) :
    collectIter m.buckets (m.buckets.flatten.length + 1) 0 0 =
      .ok m.buckets.flatten ∧
    (m.buckets.flatten.map Prod.fst).Nodup := by
  have hlen : 0 < m.buckets.length := List.length_pos.mpr hb
  have hflat : (m.buckets.getD 0 []).drop 0 ++ (m.buckets.drop 1).flatten
      = m.buckets.flatten := by
    match hm : m.buckets, hb with
    | bkt :: rest, _ => simp
  constructor
  · rw [collectIter_spec m.buckets (m.buckets.flatten.length + 1) 0 0 hlen
      (by omega) (by rw [hflat]; omega), hflat]
  · exact List.pairwise_map.mpr hnd

/-- Witness for C8's amended theorem, at the one-entry map. -/
theorem iterate_yields_all_pairs_witness :
    (mEx.buckets ≠ [] ∧
      mEx.buckets.flatten.Pairwise (fun p q => p.1 ≠ q.1)) ∧
    (collectIter mEx.buckets (mEx.buckets.flatten.length + 1) 0 0 =
        .ok mEx.buckets.flatten ∧
      (mEx.buckets.flatten.map Prod.fst).Nodup) :=
  ⟨⟨by decide, by decide⟩, iterate_yields_all_pairs mEx (by decide) (by decide)⟩

/-- Counterexample for C8 as stated: on the freshly created map (zero
inserts, zero buckets) the full traversal faults at the very first
`next()` call instead of yielding the empty sequence of pairs. -/
theorem iterate_fresh_map_faults :
    collectIter (HashMap.new : HashMap Nat Nat).buckets
      ((HashMap.new : HashMap Nat Nat).buckets.flatten.length + 1) 0 0
      = .error () := rfl

/-- C10.  On a map with at least one bucket, removing a key stored nowhere
returns absence and leaves the container — every bucket and the item
count — exactly as it was. -/
theorem remove_absent_key (hash : K → Nat) (m : HashMap K V) (k : K)
    (hb : m.buckets ≠ []) (habs : ∀ p ∈ m.buckets.flatten, p.1 ≠ k) :
    m.remove hash k = .ok (none, m) := by
  have hlen : m.buckets.length ≠ 0 := by
    rw [Ne, List.length_eq_zero]
    exact hb
  have hfind : (m.buckets.getD (hash k % m.buckets.length) []).findIdx?
      (keyq k) = none := by
    rw [List.findIdx?_eq_none_iff]
    intro p hp
    have hblt : hash k % m.buckets.length < m.buckets.length :=
      Nat.mod_lt _ (Nat.pos_of_ne_zero hlen)
    have hmem : p ∈ m.buckets.flatten := by
      rw [List.mem_flatten]
      refine ⟨m.buckets.getD (hash k % m.buckets.length) [], ?_, hp⟩
      rw [List.getD_eq_getElem m.buckets [] hblt]
      exact List.getElem_mem hblt
    simp [keyq, habs p hmem]
  rw [HashMap.remove, HashMap.bucket, if_neg hlen]
  simp only [Except.map]
  rw [hfind]

/-- Witness for C10: removing the absent key `5` from the one-entry map. -/
theorem remove_absent_key_witness :
    (mEx.buckets ≠ [] ∧ (∀ p ∈ mEx.buckets.flatten, p.1 ≠ 5)) ∧
    mEx.remove idh 5 = .ok (none, mEx) :=
  ⟨⟨by decide, by decide⟩, remove_absent_key idh mEx 5 (by decide) (by decide)⟩

/-- Witness for C9, at the fresh map with the identity hash and key `0`. -/
theorem get_contains_on_empty_witness :
    (HashMap.new : HashMap Nat Nat).items = 0 ∧
    ((HashMap.new : HashMap Nat Nat).get idh 0 = .ok none ∧
      (HashMap.new : HashMap Nat Nat).containsKey idh 0 = .ok false) :=
  ⟨rfl, get_contains_on_empty idh HashMap.new 0 rfl⟩

end Spec2Proof
